import Mathlib

/-!
Shallow embedding of `src/dashboard.py` (File organizer and monitor).

Paths are lists of components (a component never contains a separator).
The filesystem is modelled as the set of existing directory paths together
with the set of existing file paths.  The OS primitives used by the code
(`os.makedirs` with `exist_ok=True`, `shutil.move`, `os.path.exists`,
`os.listdir`, `os.path.basename`, `os.path.splitext`) are modelled by
`FS.makedirs`, `FS.move`, membership in `files ∪ dirs`, `FS.listdir`,
`List.getLastD`, and `splitextExtChars` respectively.  A Python exception
that escapes a function is modelled by `Except.error`; `print` calls inside
`MonitorApp.organize_file` are modelled by a log of `LogMsg` entries.
-/

abbrev FsPath := List String

deriving instance DecidableEq for Except

structure FS where
  dirs : List FsPath
  files : List FsPath
deriving DecidableEq

/-- Models a single directory-creation step of `os.makedirs(..., exist_ok=True)`:
creating a path that exists as a file raises `FileExistsError` (or
`NotADirectoryError` for an ancestor), creating an existing directory is a
no-op, otherwise the directory is recorded. -/
def FS.mkdirOne (fs : FS) (p : FsPath) : Except String FS :=
  if p ∈ fs.files then .error "FileExistsError"
  else if p ∈ fs.dirs then .ok fs
  else .ok ⟨p :: fs.dirs, fs.files⟩

/-- Folds `FS.mkdirOne` over a list of paths, stopping at the first error. -/
def FS.mkdirsAux : FS → List FsPath → Except String FS
  | fs, [] => .ok fs
  | fs, p :: rest =>
    match fs.mkdirOne p with
    | .error e => .error e
    | .ok fs' => FS.mkdirsAux fs' rest

/-- Models `os.makedirs(p, exist_ok=True)`: creates every missing ancestor of
`p` and `p` itself, erroring if any of them exists as a file. -/
def FS.makedirs (fs : FS) (p : FsPath) : Except String FS :=
  fs.mkdirsAux (p.inits.filter (fun q => !q.isEmpty))

/-- Models `shutil.move(src, dst)` for the regular-file case: fails when the
source file does not exist, when the destination's parent directory does not
exist, or when something already exists at the destination (the collision
behavior of the real primitive is platform-dependent; the model reports it
as an error).  On success the file is recorded at `dst` and removed from
`src`; directories are untouched. -/
def FS.move (fs : FS) (src dst : FsPath) : Except String FS :=
  if src ∉ fs.files then .error "FileNotFoundError"
  else if dst.dropLast ∉ fs.dirs then .error "FileNotFoundError: no destination directory"
  else if dst ∈ fs.files ∨ dst ∈ fs.dirs then .error "destination exists"
  else .ok ⟨fs.dirs, dst :: fs.files.filter (fun q => decide (q ≠ src))⟩

/-- Immediate (non-recursive) entries below `p`: every recorded file or
directory whose parent is `p`. -/
def FS.children (fs : FS) (p : FsPath) : List FsPath :=
  (fs.files ++ fs.dirs).filter (fun q => !q.isEmpty && decide (q.dropLast = p))

/-- Models `os.listdir p`: the immediate entries when `p` is a directory,
an error (`NotADirectoryError` / `FileNotFoundError`) otherwise. -/
def FS.listdir (fs : FS) (p : FsPath) : Except String (List FsPath) :=
  if p ∈ fs.dirs then .ok (fs.children p) else .error "NotADirectoryError"

/-- Core of the model of `os.path.splitext`, scanning the REVERSED character
list of the basename: the extension starts at the last dot of the basename,
unless every character before that dot is itself a dot (CPython treats such
names, e.g. `".jpg"` or `"..."`, as having no extension).  `acc` accumulates
the already-scanned trailing characters in original order. -/
def splitextRevAux : List Char → List Char → List Char
  | _, [] => []
  | acc, c :: rest =>
    if c = '.' then
      (if rest.any (fun x => decide (x ≠ '.')) then '.' :: acc else [])
    else splitextRevAux (c :: acc) rest

/-- Extension component of `os.path.splitext` applied to a basename, as a
character list. -/
def splitextExtChars (cs : List Char) : List Char :=
  splitextRevAux [] cs.reverse

/-- Extension of a path as the Python code computes it in
`dashboard.py:146-147`: `_, ext = os.path.splitext(file_path); ext = ext.lower()`.
`os.path.splitext` only ever takes the extension from the final (basename)
component, so the model applies `splitextExtChars` to the last component.
`str.lower` is modelled per character by `Char.toLower` (all table
extensions are ASCII). -/
def lowerExtension (file_path : FsPath) : String :=
  String.mk ((splitextExtChars (file_path.getLastD "").toList).map Char.toLower)

/-- The classification table `FOLDERS` of `dashboard.py:149-158`, in its
source order (Python dicts iterate in insertion order). -/
def FOLDERS : List (String × List String) :=
  [("images", [".png", ".jpg", ".jpeg", ".gif", ".bmp", ".tiff"]),
   ("videos", [".mp4", ".mkv", ".mov", ".avi"]),
   ("audio", [".mp3", ".wav", ".aac", ".flac"]),
   ("documents", [".pdf", ".docx", ".txt", ".pptx"]),
   ("spreadsheets", [".xls", ".xlsx", ".csv"]),
   ("archives", [".zip", ".rar", ".7z", ".tar", ".gz"]),
   ("software", [".exe", ".msi", ".apk", ".iso"]),
   ("others", [])]

/-- The exclusion list `excluded_files` of `dashboard.py:140`. -/
def excluded_files : List String := ["README.txt", "dashboard.png"]

/-- Destination-category selection of `dashboard.py:163-170`: the first table
entry whose extension list contains the lower-cased extracted extension
names the destination folder; with no match the fallback is `"others"`. -/
def classify (file_path : FsPath) : String :=
  match FOLDERS.find? (fun pr => lowerExtension file_path ∈ pr.2) with
  | some pr => pr.1
  | none => "others"

namespace MonitorApp

/-- The folder-name list `self.folders` of `dashboard.py:65-66`. -/
def folders : List String :=
  ["images", "videos", "audio", "documents",
   "spreadsheets", "archives", "software", "others"]

/-- One log entry per `print` call inside `organize_file`. -/
inductive LogMsg where
  | skipping (filename : String)
  | organizing (path : FsPath)
  | moved (src : FsPath) (dest_folder : FsPath)
  | moveError (src : FsPath) (err : String)
deriving DecidableEq

/-- Observable state of a `MonitorApp` as far as the organizing logic is
concerned: the selected `base_folder` (`none` until a folder is chosen),
the filesystem, the printed log, and the per-category counts held by the
eight progress bars (all start at 0). -/
structure AppState where
  base_folder : Option FsPath
  fs : FS
  log : List LogMsg
  bars : List Nat
deriving DecidableEq

/-- Directory-creation loop of `dashboard.py:160-161`:
`for folder in FOLDERS: os.makedirs(os.path.join(self.base_folder, folder), exist_ok=True)`,
folded over a table suffix so that it can be reasoned about by induction. -/
def ensureDirsAux (base : FsPath) : List (String × List String) → FS → Except String FS
  | [], fs => .ok fs
  | pr :: rest, fs =>
    match fs.makedirs (base ++ [pr.1]) with
    | .error e => .error e
    | .ok fs' => ensureDirsAux base rest fs'

/-- Directory creation for every category, as run by each `organize_file`
call before the move (`dashboard.py:160-161`). -/
def ensure_category_dirs (base : FsPath) (fs : FS) : Except String FS :=
  ensureDirsAux base FOLDERS fs

/-- `N`-fold repetition of the directory-creation step against the same
root, stopping at the first error. -/
def iterEnsure (base : FsPath) : Nat → FS → Except String FS
  | 0, fs => .ok fs
  | n + 1, fs =>
    match ensure_category_dirs base fs with
    | .error e => .error e
    | .ok fs' => iterEnsure base n fs'

/-- Model of `MonitorApp.organize_file` (`dashboard.py:135-176`).
The filename is the basename of the source path; an excluded filename is
skipped before any filesystem access.  Otherwise the code joins
`self.base_folder` with each folder name: when no base folder has been
selected, `os.path.join(None, folder)` raises an uncaught `TypeError`,
modelled as `Except.error`.  Directory creation runs outside the
`try`, so its errors also propagate; only the `shutil.move` call is
wrapped in `try/except`, whose failure is logged and swallowed. -/
def organize_file (s : AppState) (file_path : FsPath) : Except String AppState :=
  if file_path.getLastD "" ∈ excluded_files then
    .ok ⟨s.base_folder, s.fs, .skipping (file_path.getLastD "") :: s.log, s.bars⟩
  else
    match s.base_folder with
    | none => .error "TypeError: expected str, bytes or os.PathLike object, not NoneType"
    | some base =>
      match ensure_category_dirs base s.fs with
      | .error e => .error e
      | .ok fs1 =>
        match fs1.move file_path (base ++ [classify file_path] ++ [file_path.getLastD ""]) with
        | .ok fs2 =>
          .ok ⟨s.base_folder, fs2,
               .moved file_path (base ++ [classify file_path]) ::
                 .organizing file_path :: s.log, s.bars⟩
        | .error e =>
          .ok ⟨s.base_folder, fs1,
               .moveError file_path e :: .organizing file_path :: s.log, s.bars⟩

/-- Loop body of `dashboard.py:182-186`, walking the folder list and the
progress-bar values in parallel: when `root/folder` exists, the bar is set
to the length of `os.listdir(root/folder)` (which raises if the existing
path is not a directory); when nothing exists there, the bar keeps its
previous value. -/
def updateBars (fs : FS) (base : FsPath) : List String → List Nat → Except String (List Nat)
  | [], bars => .ok bars
  | _ :: _, [] => .error "IndexError"
  | f :: rest, b :: bs =>
    if base ++ [f] ∈ fs.files ∨ base ++ [f] ∈ fs.dirs then
      match fs.listdir (base ++ [f]) with
      | .error e => .error e
      | .ok entries =>
        match updateBars fs base rest bs with
        | .error e => .error e
        | .ok bs' => .ok (entries.length :: bs')
    else
      match updateBars fs base rest bs with
      | .error e => .error e
      | .ok bs' => .ok (b :: bs')

/-- Model of `MonitorApp.update_folder_counts` (`dashboard.py:178-186`):
with no base folder selected the method returns immediately; otherwise the
eight progress bars are refreshed from the filesystem, which itself is not
modified. -/
def update_folder_counts (s : AppState) : Except String AppState :=
  match s.base_folder with
  | none => .ok s
  | some base =>
    match updateBars s.fs base folders s.bars with
    | .error e => .error e
    | .ok bars' => .ok ⟨s.base_folder, s.fs, s.log, bars'⟩

end MonitorApp

/-- Helper predicate: every nonempty prefix of every category path
`base/name` is already a directory and is not occupied by a file, i.e. a
state on which the directory-creation loop is a no-op. -/
def dirsReady (base : FsPath) (l : List (String × List String)) (fs : FS) : Prop :=
  ∀ pr ∈ l, ∀ q ∈ (base ++ [pr.1]).inits.filter (fun q => !q.isEmpty),
    q ∈ fs.dirs ∧ q ∉ fs.files

theorem toLower_eq_dot {c : Char} (h : c.toLower = '.') : c = '.' := by
  simp only [Char.toLower] at h
  split at h
  · exfalso
    rename_i hr
    obtain ⟨h1, h2⟩ := hr
    set n := c.toNat with hn
    interval_cases n <;> exact absurd h (by decide)
  · exact h

theorem splitextRevAux_skip (xs : List Char) (hxs : ∀ x ∈ xs, x ≠ '.') :
    ∀ acc ys, splitextRevAux acc (xs ++ ys) = splitextRevAux (xs.reverse ++ acc) ys := by
  induction xs with
  | nil => intro acc ys; simp
  | cons a as ih =>
    intro acc ys
    have ha : a ≠ '.' := hxs a (by simp)
    have has : ∀ x ∈ as, x ≠ '.' := fun x hx => hxs x (by simp [hx])
    simp only [List.cons_append, splitextRevAux, if_neg ha]
    rw [List.append_eq, ih has (a :: acc) ys]
    simp

theorem splitextExtChars_eq (name rest : List Char)
    (hname : ∃ c ∈ name, c ≠ '.') (hrest : '.' ∉ rest) :
    splitextExtChars (name ++ '.' :: rest) = '.' :: rest := by
  unfold splitextExtChars
  have hrev : (name ++ '.' :: rest).reverse = rest.reverse ++ '.' :: name.reverse := by
    simp
  rw [hrev]
  have h1 : ∀ x ∈ rest.reverse, x ≠ '.' := by
    intro x hx h
    exact hrest (by subst h; exact List.mem_reverse.mp hx)
  rw [splitextRevAux_skip rest.reverse h1 [] ('.' :: name.reverse)]
  simp only [List.reverse_reverse, List.append_nil]
  simp only [splitextRevAux, if_pos rfl]
  have hany : name.reverse.any (fun x => decide (x ≠ '.')) = true := by
    rw [List.any_eq_true]
    obtain ⟨c, hc, hcne⟩ := hname
    exact ⟨c, List.mem_reverse.mpr hc, by simpa using hcne⟩
  rw [hany]
  simp

theorem mkdirOne_ok {fs fs' : FS} {p : FsPath} (h : fs.mkdirOne p = .ok fs') :
    fs'.files = fs.files ∧ p ∉ fs.files ∧ p ∈ fs'.dirs ∧ ∀ d ∈ fs.dirs, d ∈ fs'.dirs := by
  by_cases hf : p ∈ fs.files
  · simp [FS.mkdirOne, hf] at h
  · by_cases hd : p ∈ fs.dirs
    · simp only [FS.mkdirOne, if_neg hf, if_pos hd, Except.ok.injEq] at h
      subst h
      exact ⟨rfl, hf, hd, fun d hd' => hd'⟩
    · simp only [FS.mkdirOne, if_neg hf, if_neg hd, Except.ok.injEq] at h
      subst h
      exact ⟨rfl, hf, by simp, fun d hd' => by simp [hd']⟩

theorem mkdirOne_noop {fs : FS} {p : FsPath} (hd : p ∈ fs.dirs) (hf : p ∉ fs.files) :
    fs.mkdirOne p = .ok fs := by
  simp [FS.mkdirOne, hf, hd]

theorem mkdirsAux_ok {ps : List FsPath} :
    ∀ {fs fs' : FS}, fs.mkdirsAux ps = .ok fs' →
    fs'.files = fs.files ∧ (∀ d ∈ fs.dirs, d ∈ fs'.dirs) ∧
      ∀ p ∈ ps, p ∈ fs'.dirs ∧ p ∉ fs.files := by
  induction ps with
  | nil =>
    intro fs fs' h
    simp only [FS.mkdirsAux, Except.ok.injEq] at h
    subst h
    exact ⟨rfl, fun d hd => hd, by simp⟩
  | cons p rest ih =>
    intro fs fs' h
    simp only [FS.mkdirsAux] at h
    cases hm : fs.mkdirOne p with
    | error e => rw [hm] at h; cases h
    | ok fs1 =>
      rw [hm] at h
      obtain ⟨hfiles1, hp1, hpd1, hmono1⟩ := mkdirOne_ok hm
      obtain ⟨hfiles2, hmono2, hrest⟩ := ih h
      refine ⟨hfiles2.trans hfiles1, fun d hd => hmono2 d (hmono1 d hd), ?_⟩
      intro q hq
      rcases List.mem_cons.mp hq with rfl | hq'
      · exact ⟨hmono2 q hpd1, hp1⟩
      · obtain ⟨hq1, hq2⟩ := hrest q hq'
        exact ⟨hq1, hfiles1 ▸ hq2⟩

theorem mkdirsAux_noop {ps : List FsPath} {fs : FS}
    (h : ∀ p ∈ ps, p ∈ fs.dirs ∧ p ∉ fs.files) :
    fs.mkdirsAux ps = .ok fs := by
  induction ps with
  | nil => rfl
  | cons p rest ih =>
    obtain ⟨hd, hf⟩ := h p (by simp)
    simp only [FS.mkdirsAux, mkdirOne_noop hd hf]
    exact ih (fun q hq => h q (by simp [hq]))

theorem makedirs_ok {fs fs' : FS} {p : FsPath} (h : fs.makedirs p = .ok fs') :
    fs'.files = fs.files ∧ (∀ d ∈ fs.dirs, d ∈ fs'.dirs) ∧
      ∀ q ∈ p.inits.filter (fun q => !q.isEmpty), q ∈ fs'.dirs ∧ q ∉ fs.files :=
  mkdirsAux_ok h

theorem makedirs_noop {fs : FS} {p : FsPath}
    (h : ∀ q ∈ p.inits.filter (fun q => !q.isEmpty), q ∈ fs.dirs ∧ q ∉ fs.files) :
    fs.makedirs p = .ok fs :=
  mkdirsAux_noop h

theorem ensureDirsAux_ok {l : List (String × List String)} {base : FsPath} :
    ∀ {fs fs' : FS}, MonitorApp.ensureDirsAux base l fs = .ok fs' →
    fs'.files = fs.files ∧ (∀ d ∈ fs.dirs, d ∈ fs'.dirs) ∧ dirsReady base l fs' := by
  induction l with
  | nil =>
    intro fs fs' h
    simp only [MonitorApp.ensureDirsAux, Except.ok.injEq] at h
    subst h
    exact ⟨rfl, fun d hd => hd, by simp [dirsReady]⟩
  | cons pr rest ih =>
    intro fs fs' h
    simp only [MonitorApp.ensureDirsAux] at h
    cases hm : fs.makedirs (base ++ [pr.1]) with
    | error e => rw [hm] at h; cases h
    | ok fs1 =>
      rw [hm] at h
      obtain ⟨hfiles1, hmono1, hmk⟩ := makedirs_ok hm
      obtain ⟨hfiles2, hmono2, hready⟩ := ih h
      refine ⟨hfiles2.trans hfiles1, fun d hd => hmono2 d (hmono1 d hd), ?_⟩
      intro q hq r hr
      rcases List.mem_cons.mp hq with rfl | hq'
      · obtain ⟨h1, h2⟩ := hmk r hr
        exact ⟨hmono2 r h1, by rw [hfiles2, hfiles1]; exact h2⟩
      · exact hready q hq' r hr

theorem ensureDirsAux_noop {l : List (String × List String)} {base : FsPath} {fs : FS}
    (h : dirsReady base l fs) :
    MonitorApp.ensureDirsAux base l fs = .ok fs := by
  induction l with
  | nil => rfl
  | cons pr rest ih =>
    simp only [MonitorApp.ensureDirsAux, makedirs_noop (h pr (by simp))]
    exact ih (fun q hq r hr => h q (by simp [hq]) r hr)

theorem ensure_ok_facts {base : FsPath} {fs fs' : FS}
    (h : MonitorApp.ensure_category_dirs base fs = .ok fs') :
    fs'.files = fs.files ∧ (∀ d ∈ fs.dirs, d ∈ fs'.dirs) ∧ dirsReady base FOLDERS fs' :=
  ensureDirsAux_ok h

theorem ensure_fixpoint {base : FsPath} {fs fs' : FS}
    (h : MonitorApp.ensure_category_dirs base fs = .ok fs') :
    MonitorApp.ensure_category_dirs base fs' = .ok fs' :=
  ensureDirsAux_noop (ensure_ok_facts h).2.2

theorem iterEnsure_of_fixpoint {base : FsPath} {g : FS}
    (h : MonitorApp.ensure_category_dirs base g = .ok g) :
    ∀ n, MonitorApp.iterEnsure base n g = .ok g := by
  intro n
  induction n with
  | zero => rfl
  | succ n ih => simp only [MonitorApp.iterEnsure, h]; exact ih

theorem folders_eq_map_fst : MonitorApp.folders = FOLDERS.map Prod.fst := by decide

theorem ensure_mem_folders {base : FsPath} {fs fs' : FS}
    (h : MonitorApp.ensure_category_dirs base fs = .ok fs') :
    ∀ name ∈ MonitorApp.folders, base ++ [name] ∈ fs'.dirs := by
  intro name hname
  rw [folders_eq_map_fst] at hname
  obtain ⟨pr, hpr, hfst⟩ := List.mem_map.mp hname
  have hready := (ensure_ok_facts h).2.2 pr hpr
  subst hfst
  refine (hready (base ++ [pr.1]) ?_).1
  rw [List.mem_filter]
  refine ⟨(List.mem_inits _ _).mpr (List.prefix_refl _), ?_⟩
  simp

theorem find_first_match : ∀ pr ∈ FOLDERS, ∀ x ∈ pr.2,
    FOLDERS.find? (fun q => x ∈ q.2) = some pr := by decide

theorem ext_shape : ∀ pr ∈ FOLDERS, ∀ x ∈ pr.2,
    x.toList = '.' :: x.toList.tail ∧ '.' ∉ x.toList.tail := by decide

theorem move_ok_facts {fs fs' : FS} {src dst : FsPath} (h : fs.move src dst = .ok fs') :
    fs'.dirs = fs.dirs ∧ dst ∈ fs'.files ∧ src ∉ fs'.files := by
  unfold FS.move at h
  split at h
  · cases h
  · split at h
    · cases h
    · split at h
      · cases h
      · rename_i hsrc hdst hcol
        rw [Except.ok.injEq] at h
        subst h
        refine ⟨rfl, by simp, ?_⟩
        intro hmem
        rcases List.mem_cons.mp hmem with heq | hmem'
        · exact hcol (Or.inl (heq ▸ not_not.mp hsrc))
        · rw [List.mem_filter] at hmem'
          exact (by simpa using hmem'.2 : src ≠ src) rfl

theorem updateBars_ok {fs : FS} {base : FsPath} :
    ∀ (fl : List String) (bl bl' : List Nat),
    MonitorApp.updateBars fs base fl bl = .ok bl' →
    bl' = (List.zipWith
            (fun f b => if base ++ [f] ∈ fs.files ∨ base ++ [f] ∈ fs.dirs
                        then (fs.children (base ++ [f])).length else b) fl bl)
          ++ bl.drop fl.length := by
  intro fl
  induction fl with
  | nil =>
    intro bl bl' h
    simp only [MonitorApp.updateBars, Except.ok.injEq] at h
    simp [← h]
  | cons f rest ih =>
    intro bl bl' h
    cases bl with
    | nil => simp [MonitorApp.updateBars] at h
    | cons b bs =>
      simp only [MonitorApp.updateBars] at h
      by_cases hex : base ++ [f] ∈ fs.files ∨ base ++ [f] ∈ fs.dirs
      · rw [if_pos hex] at h
        unfold FS.listdir at h
        by_cases hd : base ++ [f] ∈ fs.dirs
        · rw [if_pos hd] at h
          cases hr : MonitorApp.updateBars fs base rest bs with
          | error e => rw [hr] at h; cases h
          | ok bs' =>
            rw [hr] at h
            rw [Except.ok.injEq] at h
            subst h
            rw [ih bs bs' hr]
            simp [if_pos hex]
        · rw [if_neg hd] at h; cases h
      · rw [if_neg hex] at h
        cases hr : MonitorApp.updateBars fs base rest bs with
        | error e => rw [hr] at h; cases h
        | ok bs' =>
          rw [hr] at h
          rw [Except.ok.injEq] at h
          subst h
          rw [ih bs bs' hr]
          simp [if_neg hex]

/-- C6: for every source path whose filename (basename) is on the exclusion
list, `organize_file` returns before directory creation, classification and
the move: the state comes back with the filesystem untouched (only a
"Skipping" log entry is added), no matter what the rest of the state is. -/
theorem C6_excluded_skip (s : MonitorApp.AppState) (fp : FsPath)
    (h : fp.getLastD "" ∈ excluded_files) :
    MonitorApp.organize_file s fp =
      .ok ⟨s.base_folder, s.fs, .skipping (fp.getLastD "") :: s.log, s.bars⟩ := by
  unfold MonitorApp.organize_file
  rw [if_pos h]

theorem C6_witness :
    (["R", "README.txt"].getLastD "" ∈ excluded_files) ∧
    MonitorApp.organize_file ⟨some ["R"], ⟨[["R"]], [["R", "README.txt"]]⟩, [], []⟩
        ["R", "README.txt"] =
      .ok ⟨some ["R"], ⟨[["R"]], [["R", "README.txt"]]⟩, [.skipping "README.txt"], []⟩ :=
  ⟨by decide, C6_excluded_skip _ _ (by decide)⟩

/-- C2: classification is total — every path is mapped to one of the eight
category names — and whenever the extracted lower-cased extension is empty
or is contained in no extension set of the table, the result is the
fallback category `"others"`. -/
theorem C2_classify_fallback_total :
    (∀ fp : FsPath,
      (lowerExtension fp = "" ∨ ∀ pr ∈ FOLDERS, lowerExtension fp ∉ pr.2) →
      classify fp = "others") ∧
    ∀ fp : FsPath, classify fp ∈ MonitorApp.folders := by
  constructor
  · intro fp h
    unfold classify
    cases hf : FOLDERS.find? (fun pr => lowerExtension fp ∈ pr.2) with
    | none => rfl
    | some pr =>
      exfalso
      have hp := List.find?_some hf
      have hmem := List.mem_of_find?_eq_some hf
      rw [decide_eq_true_eq] at hp
      rcases h with h0 | h1
      · rw [h0] at hp
        have hnone : ∀ pr ∈ FOLDERS, ("" : String) ∉ pr.2 := by decide
        exact hnone pr hmem hp
      · exact h1 pr hmem hp
  · intro fp
    unfold classify
    cases hf : FOLDERS.find? (fun pr => lowerExtension fp ∈ pr.2) with
    | none => decide
    | some pr =>
      have hmem := List.mem_of_find?_eq_some hf
      have hall : ∀ q ∈ FOLDERS, q.1 ∈ MonitorApp.folders := by decide
      exact hall pr hmem

theorem C2_witness :
    (∀ pr ∈ FOLDERS, lowerExtension ["file.xyz"] ∉ pr.2) ∧
    classify ["file.xyz"] = "others" ∧
    lowerExtension ["noext"] = "" ∧
    classify ["noext"] = "others" ∧
    classify ["file.xyz"] ∈ MonitorApp.folders :=
  ⟨by decide,
   C2_classify_fallback_total.1 ["file.xyz"] (Or.inr (by decide)),
   by decide,
   C2_classify_fallback_total.1 ["noext"] (Or.inl (by decide)),
   C2_classify_fallback_total.2 ["file.xyz"]⟩

/-- C4: the directory-creation step that runs at the start of every
non-skipped `organize_file` call establishes all eight category directories
under the root: (1) whenever `ensure_category_dirs` succeeds (which is the
only way the call reaches the move step), every `base/category` is a
directory of the resulting filesystem the move runs against, and (2) after
any non-skipped `organize_file` call that returns normally, all eight
category directories exist under the root. -/
theorem C4_category_dirs_before_move :
    (∀ (base : FsPath) (fs fs' : FS),
      MonitorApp.ensure_category_dirs base fs = .ok fs' →
      ∀ name ∈ MonitorApp.folders, base ++ [name] ∈ fs'.dirs) ∧
    (∀ (s s' : MonitorApp.AppState) (base fp : FsPath),
      s.base_folder = some base → fp.getLastD "" ∉ excluded_files →
      MonitorApp.organize_file s fp = .ok s' →
      ∀ name ∈ MonitorApp.folders, base ++ [name] ∈ s'.fs.dirs) := by
  constructor
  · exact fun base fs fs' h => ensure_mem_folders h
  · intro s s' base fp hb hex h name hname
    simp only [MonitorApp.organize_file, if_neg hex, hb] at h
    cases he : MonitorApp.ensure_category_dirs base s.fs with
    | error e => simp only [he] at h; cases h
    | ok fs1 =>
      simp only [he] at h
      cases hm : fs1.move fp (base ++ [classify fp] ++ [fp.getLastD ""]) with
      | ok fs2 =>
        simp only [hm, Except.ok.injEq] at h
        subst h
        show base ++ [name] ∈ fs2.dirs
        rw [(move_ok_facts hm).1]
        exact ensure_mem_folders he name hname
      | error e =>
        simp only [hm, Except.ok.injEq] at h
        subst h
        exact ensure_mem_folders he name hname

theorem C4_witness :
    MonitorApp.ensure_category_dirs ["R"] ⟨[], []⟩ =
      .ok ⟨[["R", "others"], ["R", "software"], ["R", "archives"], ["R", "spreadsheets"],
            ["R", "documents"], ["R", "audio"], ["R", "videos"], ["R", "images"], ["R"]], []⟩ ∧
    ["R", "images"] ∈
      (⟨[["R", "others"], ["R", "software"], ["R", "archives"], ["R", "spreadsheets"],
         ["R", "documents"], ["R", "audio"], ["R", "videos"], ["R", "images"], ["R"]], []⟩
        : FS).dirs :=
  ⟨by decide,
   C4_category_dirs_before_move.1 ["R"] ⟨[], []⟩ _ (by decide) "images" (by decide)⟩

/-- C5: directory creation is idempotent: once one run of the creation step
has succeeded, running it again on the resulting state is a no-op that
raises no error, and running the step `N ≥ 1` times from the original state
gives exactly the outcome of the first run (each category directory is
created exactly once). -/
theorem C5_dir_creation_idempotent (base : FsPath) (fs fs' : FS)
    (h : MonitorApp.ensure_category_dirs base fs = .ok fs') :
    MonitorApp.ensure_category_dirs base fs' = .ok fs' ∧
    ∀ N, 1 ≤ N → MonitorApp.iterEnsure base N fs = .ok fs' := by
  have hfix := ensure_fixpoint h
  refine ⟨hfix, ?_⟩
  intro N hN
  obtain ⟨n, rfl⟩ : ∃ n, N = n + 1 := ⟨N - 1, by omega⟩
  simp only [MonitorApp.iterEnsure, h]
  exact iterEnsure_of_fixpoint hfix n

theorem C5_witness :
    MonitorApp.ensure_category_dirs ["R"]
      ⟨[["R", "others"], ["R", "software"], ["R", "archives"], ["R", "spreadsheets"],
        ["R", "documents"], ["R", "audio"], ["R", "videos"], ["R", "images"], ["R"]], []⟩ =
      .ok ⟨[["R", "others"], ["R", "software"], ["R", "archives"], ["R", "spreadsheets"],
            ["R", "documents"], ["R", "audio"], ["R", "videos"], ["R", "images"], ["R"]], []⟩ ∧
    MonitorApp.iterEnsure ["R"] 3 ⟨[["R"]], []⟩ =
      .ok ⟨[["R", "others"], ["R", "software"], ["R", "archives"], ["R", "spreadsheets"],
            ["R", "documents"], ["R", "audio"], ["R", "videos"], ["R", "images"], ["R"]], []⟩ :=
  ⟨(C5_dir_creation_idempotent ["R"] ⟨[["R"]], []⟩ _ (by decide)).1,
   (C5_dir_creation_idempotent ["R"] ⟨[["R"]], []⟩ _ (by decide)).2 3 (by decide)⟩

/-- C3: a non-excluded file whose move succeeds ends up at
`root/category/filename` with the filename preserved, the source path no
longer holds the file, and all eight category directories exist under the
root after the call; the call returns the corresponding success state. -/
theorem C3_organize_moves_file (s : MonitorApp.AppState) (base fp : FsPath)
    (fs1 fs2 : FS)
    (hb : s.base_folder = some base)
    (hex : fp.getLastD "" ∉ excluded_files)
    (hens : MonitorApp.ensure_category_dirs base s.fs = .ok fs1)
    (hmv : fs1.move fp (base ++ [classify fp] ++ [fp.getLastD ""]) = .ok fs2) :
    MonitorApp.organize_file s fp =
      .ok ⟨s.base_folder, fs2,
           .moved fp (base ++ [classify fp]) :: .organizing fp :: s.log, s.bars⟩ ∧
    base ++ [classify fp] ++ [fp.getLastD ""] ∈ fs2.files ∧
    fp ∉ fs2.files ∧
    ∀ name ∈ MonitorApp.folders, base ++ [name] ∈ fs2.dirs := by
  obtain ⟨hdirs, hdst, hsrc⟩ := move_ok_facts hmv
  refine ⟨?_, hdst, hsrc, ?_⟩
  · simp only [MonitorApp.organize_file, if_neg hex, hb, hens, hmv]
  · intro name hname
    rw [hdirs]
    exact ensure_mem_folders hens name hname

theorem C3_witness :
    MonitorApp.ensure_category_dirs ["R"] ⟨[["R"]], [["R", "photo.jpg"]]⟩ =
      .ok ⟨[["R", "others"], ["R", "software"], ["R", "archives"], ["R", "spreadsheets"],
            ["R", "documents"], ["R", "audio"], ["R", "videos"], ["R", "images"], ["R"]],
           [["R", "photo.jpg"]]⟩ ∧
    MonitorApp.organize_file ⟨some ["R"], ⟨[["R"]], [["R", "photo.jpg"]]⟩, [], []⟩
        ["R", "photo.jpg"] =
      .ok ⟨some ["R"],
           ⟨[["R", "others"], ["R", "software"], ["R", "archives"], ["R", "spreadsheets"],
             ["R", "documents"], ["R", "audio"], ["R", "videos"], ["R", "images"], ["R"]],
            [["R", "images", "photo.jpg"]]⟩,
           [.moved ["R", "photo.jpg"] ["R", "images"], .organizing ["R", "photo.jpg"]], []⟩ ∧
    ["R", "images", "photo.jpg"] ∈
      ([["R", "images", "photo.jpg"]] : List FsPath) ∧
    ["R", "photo.jpg"] ∉ ([["R", "images", "photo.jpg"]] : List FsPath) ∧
    ["R", "images"] ∈
      ([["R", "others"], ["R", "software"], ["R", "archives"], ["R", "spreadsheets"],
        ["R", "documents"], ["R", "audio"], ["R", "videos"], ["R", "images"], ["R"]]
        : List FsPath) := by
  have h := C3_organize_moves_file ⟨some ["R"], ⟨[["R"]], [["R", "photo.jpg"]]⟩, [], []⟩
    ["R"] ["R", "photo.jpg"]
    ⟨[["R", "others"], ["R", "software"], ["R", "archives"], ["R", "spreadsheets"],
      ["R", "documents"], ["R", "audio"], ["R", "videos"], ["R", "images"], ["R"]],
     [["R", "photo.jpg"]]⟩
    ⟨[["R", "others"], ["R", "software"], ["R", "archives"], ["R", "spreadsheets"],
      ["R", "documents"], ["R", "audio"], ["R", "videos"], ["R", "images"], ["R"]],
     [["R", "images", "photo.jpg"]]⟩
    rfl (by decide) (by decide) (by decide)
  exact ⟨by decide, h.1, h.2.1, h.2.2.1, h.2.2.2 "images" (by decide)⟩

/-- C7: when the move itself fails, the exception is caught at the
`organize_file` boundary: the call returns normally with the error recorded
in the log, and the set of files is exactly what it was before the call
(in particular the source file, if present, is still in place); only the
category directories created beforehand remain. -/
theorem C7_move_error_caught (s : MonitorApp.AppState) (base fp : FsPath)
    (fs1 : FS) (e : String)
    (hb : s.base_folder = some base)
    (hex : fp.getLastD "" ∉ excluded_files)
    (hens : MonitorApp.ensure_category_dirs base s.fs = .ok fs1)
    (hmv : fs1.move fp (base ++ [classify fp] ++ [fp.getLastD ""]) = .error e) :
    MonitorApp.organize_file s fp =
      .ok ⟨s.base_folder, fs1, .moveError fp e :: .organizing fp :: s.log, s.bars⟩ ∧
    fs1.files = s.fs.files := by
  refine ⟨?_, (ensure_ok_facts hens).1⟩
  simp only [MonitorApp.organize_file, if_neg hex, hb, hens, hmv]

theorem C7_witness :
    MonitorApp.ensure_category_dirs ["R"] ⟨[["R"]], []⟩ =
      .ok ⟨[["R", "others"], ["R", "software"], ["R", "archives"], ["R", "spreadsheets"],
            ["R", "documents"], ["R", "audio"], ["R", "videos"], ["R", "images"], ["R"]], []⟩ ∧
    MonitorApp.organize_file ⟨some ["R"], ⟨[["R"]], []⟩, [], []⟩ ["R", "photo.jpg"] =
      .ok ⟨some ["R"],
           ⟨[["R", "others"], ["R", "software"], ["R", "archives"], ["R", "spreadsheets"],
             ["R", "documents"], ["R", "audio"], ["R", "videos"], ["R", "images"], ["R"]], []⟩,
           [.moveError ["R", "photo.jpg"] "FileNotFoundError",
            .organizing ["R", "photo.jpg"]], []⟩ ∧
    ([] : List FsPath) = [] := by
  have h := C7_move_error_caught ⟨some ["R"], ⟨[["R"]], []⟩, [], []⟩ ["R"] ["R", "photo.jpg"]
    ⟨[["R", "others"], ["R", "software"], ["R", "archives"], ["R", "spreadsheets"],
      ["R", "documents"], ["R", "audio"], ["R", "videos"], ["R", "images"], ["R"]], []⟩
    "FileNotFoundError" rfl (by decide) (by decide) (by decide)
  exact ⟨by decide, h.1, h.2⟩

/-- C8 counterexample: with no root directory configured, a file-creation
event for a non-excluded path does not trigger a warned no-op — the
`organize_file` call raises an uncaught `TypeError` (from
`os.path.join(None, folder)`), modelled as an `Except.error` return. -/
theorem C8_cex_missing_root_raises :
    ("a.jpg" ∉ excluded_files) ∧
    MonitorApp.organize_file ⟨none, ⟨[], []⟩, [], []⟩ ["watched", "a.jpg"] =
      .error "TypeError: expected str, bytes or os.PathLike object, not NoneType" := by
  exact ⟨by decide, rfl⟩

/-- C8 (amended): while no root directory is configured, the timer-driven
count refresh returns immediately as a silent no-op (no warning is issued)
and raises nothing; a file-creation event for a non-excluded path, however,
raises an uncaught `TypeError` inside `organize_file` rather than warning,
and only an excluded filename is skipped without error. -/
theorem C8_missing_root (s : MonitorApp.AppState) (h : s.base_folder = none) :
    MonitorApp.update_folder_counts s = .ok s ∧
    (∀ fp : FsPath, fp.getLastD "" ∉ excluded_files →
      MonitorApp.organize_file s fp =
        .error "TypeError: expected str, bytes or os.PathLike object, not NoneType") ∧
    (∀ fp : FsPath, fp.getLastD "" ∈ excluded_files →
      MonitorApp.organize_file s fp =
        .ok ⟨s.base_folder, s.fs, .skipping (fp.getLastD "") :: s.log, s.bars⟩) := by
  refine ⟨?_, ?_, ?_⟩
  · simp only [MonitorApp.update_folder_counts, h]
  · intro fp hex
    simp only [MonitorApp.organize_file, if_neg hex, h]
  · intro fp hexc
    unfold MonitorApp.organize_file
    rw [if_pos hexc]

theorem C8_witness :
    MonitorApp.update_folder_counts ⟨none, ⟨[], []⟩, [], []⟩ =
      .ok ⟨none, ⟨[], []⟩, [], []⟩ ∧
    MonitorApp.organize_file ⟨none, ⟨[], []⟩, [], []⟩ ["watched", "b.jpg"] =
      .error "TypeError: expected str, bytes or os.PathLike object, not NoneType" ∧
    MonitorApp.organize_file ⟨none, ⟨[], []⟩, [], []⟩ ["README.txt"] =
      .ok ⟨none, ⟨[], []⟩, [.skipping "README.txt"], []⟩ := by
  have h := C8_missing_root ⟨none, ⟨[], []⟩, [], []⟩ rfl
  exact ⟨h.1, h.2.1 ["watched", "b.jpg"] (by decide), h.2.2 ["README.txt"] (by decide)⟩

/-- C10: the exclusion check compares the exact basename, case-sensitively,
against `["README.txt", "dashboard.png"]`: the list is exactly that; a
basename differing only in letter case is not on the list, so such a file
proceeds through classification and (when the move succeeds) is moved
normally; an excluded basename is skipped whatever the directory depth of
the source path, since only the basename is consulted. -/
theorem C10_exclusion_exact_basename :
    excluded_files = ["README.txt", "dashboard.png"] ∧
    ("readme.txt" ∉ excluded_files ∧ "README.TXT" ∉ excluded_files) ∧
    (∀ (s : MonitorApp.AppState) (fp : FsPath), fp.getLastD "" ∈ excluded_files →
      MonitorApp.organize_file s fp =
        .ok ⟨s.base_folder, s.fs, .skipping (fp.getLastD "") :: s.log, s.bars⟩) ∧
    (∀ (s : MonitorApp.AppState) (base fp : FsPath) (fs1 fs2 : FS),
      s.base_folder = some base → fp.getLastD "" ∉ excluded_files →
      MonitorApp.ensure_category_dirs base s.fs = .ok fs1 →
      fs1.move fp (base ++ [classify fp] ++ [fp.getLastD ""]) = .ok fs2 →
      MonitorApp.organize_file s fp =
        .ok ⟨s.base_folder, fs2,
             .moved fp (base ++ [classify fp]) :: .organizing fp :: s.log, s.bars⟩) := by
  refine ⟨rfl, ⟨by decide, by decide⟩, ?_, ?_⟩
  · intro s fp hexc
    unfold MonitorApp.organize_file
    rw [if_pos hexc]
  · intro s base fp fs1 fs2 hb hex hens hmv
    simp only [MonitorApp.organize_file, if_neg hex, hb, hens, hmv]

theorem C10_witness :
    MonitorApp.organize_file ⟨some ["R"], ⟨[["R"]], [["R", "sub", "README.txt"]]⟩, [], []⟩
        ["R", "sub", "README.txt"] =
      .ok ⟨some ["R"], ⟨[["R"]], [["R", "sub", "README.txt"]]⟩,
           [.skipping "README.txt"], []⟩ ∧
    ("readme.txt" ∉ excluded_files) ∧
    MonitorApp.organize_file ⟨some ["R"], ⟨[["R"]], [["R", "readme.txt"]]⟩, [], []⟩
        ["R", "readme.txt"] =
      .ok ⟨some ["R"],
           ⟨[["R", "others"], ["R", "software"], ["R", "archives"], ["R", "spreadsheets"],
             ["R", "documents"], ["R", "audio"], ["R", "videos"], ["R", "images"], ["R"]],
            [["R", "documents", "readme.txt"]]⟩,
           [.moved ["R", "readme.txt"] ["R", "documents"],
            .organizing ["R", "readme.txt"]], []⟩ := by
  refine ⟨C10_exclusion_exact_basename.2.2.1 _ _ (by decide), by decide, ?_⟩
  exact C10_exclusion_exact_basename.2.2.2
    ⟨some ["R"], ⟨[["R"]], [["R", "readme.txt"]]⟩, [], []⟩ ["R"] ["R", "readme.txt"]
    ⟨[["R", "others"], ["R", "software"], ["R", "archives"], ["R", "spreadsheets"],
      ["R", "documents"], ["R", "audio"], ["R", "videos"], ["R", "images"], ["R"]],
     [["R", "readme.txt"]]⟩
    ⟨[["R", "others"], ["R", "software"], ["R", "archives"], ["R", "spreadsheets"],
      ["R", "documents"], ["R", "audio"], ["R", "videos"], ["R", "images"], ["R"]],
     [["R", "documents", "readme.txt"]]⟩
    rfl (by decide) (by decide) (by decide)

theorem toList_mk (l : List Char) : (String.mk l).toList = l := rfl

/-- C1 counterexample: the claim quantifies over every filename, but for the
empty filename with extension `".jpg"` (a listed images extension) the path
`".jpg"` is classified as `"others"`, not `"images"`: `os.path.splitext`
treats a basename whose only non-leading-dot characters sit after no
non-dot character (a "hidden file" such as `".jpg"`) as having no
extension. -/
theorem C1_cex_hidden_file :
    ("images", [".png", ".jpg", ".jpeg", ".gif", ".bmp", ".tiff"]) ∈ FOLDERS ∧
    (".jpg" ∈ [".png", ".jpg", ".jpeg", ".gif", ".bmp", ".tiff"]) ∧
    (("" ++ ".jpg" : String) = ".jpg") ∧
    classify [("" ++ ".jpg" : String)] = "others" ∧
    ("others" ≠ "images") := by
  exact ⟨by decide, by decide, rfl, by decide, by decide⟩

/-- C1 (amended): for every filename that contains at least one character
other than `'.'`, and every extension `E` listed under category `C`,
classifying that filename with `E` appended returns `C` regardless of the
letter case of the appended extension (the extracted extension is
lower-cased before the table lookup): formally, any `e` whose per-character
lower-casing equals a listed extension of `C` yields `C`. -/
theorem C1_classify_case_insensitive (dir : FsPath) (name e cat : String)
    (exts : List String)
    (hmem : (cat, exts) ∈ FOLDERS)
    (hext : String.mk (e.toList.map Char.toLower) ∈ exts)
    (hname : ∃ c ∈ name.toList, c ≠ '.') :
    classify (dir ++ [name ++ e]) = cat := by
  obtain ⟨hshape, htail⟩ := ext_shape (cat, exts) hmem _ hext
  rw [toList_mk] at hshape htail
  cases hchars : e.toList with
  | nil => rw [hchars] at hshape; simp at hshape
  | cons c cs =>
    rw [hchars] at hshape htail
    simp only [List.map_cons, List.tail_cons] at hshape htail
    have hc : c = '.' := toLower_eq_dot (List.cons.injEq .. ▸ hshape).1
    have hcs : '.' ∉ cs := fun hmemc => htail (List.mem_map.mpr ⟨'.', hmemc, by decide⟩)
    have hsplit : splitextExtChars ((name ++ e).toList) = '.' :: cs := by
      rw [show (name ++ e).toList = name.toList ++ e.toList from rfl, hchars, hc]
      exact splitextExtChars_eq _ _ hname hcs
    have hbase : (dir ++ [name ++ e]).getLastD "" = name ++ e := List.getLastD_concat _ _ _
    have hlow : lowerExtension (dir ++ [name ++ e]) = String.mk (e.toList.map Char.toLower) := by
      unfold lowerExtension
      rw [hbase, hsplit, hchars, hc]
    have hfind := find_first_match (cat, exts) hmem _ hext
    unfold classify
    simp only [hlow]
    rw [hfind]

theorem C1_witness :
    (("images", [".png", ".jpg", ".jpeg", ".gif", ".bmp", ".tiff"]) ∈ FOLDERS) ∧
    (String.mk (".JPG".toList.map Char.toLower) ∈
      [".png", ".jpg", ".jpeg", ".gif", ".bmp", ".tiff"]) ∧
    (∃ c ∈ "photo".toList, c ≠ '.') ∧
    classify (["R"] ++ ["photo" ++ ".JPG"]) = "images" :=
  ⟨by decide, by decide, by decide,
   C1_classify_case_insensitive ["R"] "photo" ".JPG" "images"
     [".png", ".jpg", ".jpeg", ".gif", ".bmp", ".tiff"]
     (by decide) (by decide) (by decide)⟩

/-- C9 counterexample: the claim says the per-category count is 0 when the
category directory does not exist, but the code skips the update in that
case, keeping the previously displayed value: in a state whose `images`
directory is absent while the `images` bar still shows 1, the refresh
returns the state unchanged with the bar at 1, not 0. -/
theorem C9_cex_stale_count :
    (["R", "images"] ∉ (⟨[["R"]], []⟩ : FS).dirs) ∧
    (["R", "images"] ∉ (⟨[["R"]], []⟩ : FS).files) ∧
    MonitorApp.update_folder_counts
        ⟨some ["R"], ⟨[["R"]], []⟩, [], [1, 0, 0, 0, 0, 0, 0, 0]⟩ =
      .ok ⟨some ["R"], ⟨[["R"]], []⟩, [], [1, 0, 0, 0, 0, 0, 0, 0]⟩ ∧
    ((1 : Nat) ≠ 0) := by
  exact ⟨by decide, by decide, by decide, by decide⟩

/-- C9 (amended): a refresh that returns normally has no filesystem side
effects and leaves root and log untouched; each bar whose `root/category`
path exists (necessarily as a directory, else the call errors) is set to
the number of immediate entries of that directory, while a bar whose
directory does not exist keeps its previous value (it is *not* reset
to 0). -/
theorem C9_refresh_counts (s s' : MonitorApp.AppState) (base : FsPath)
    (hb : s.base_folder = some base)
    (h : MonitorApp.update_folder_counts s = .ok s') :
    s'.fs = s.fs ∧ s'.base_folder = s.base_folder ∧ s'.log = s.log ∧
    s'.bars = (List.zipWith
        (fun f b => if base ++ [f] ∈ s.fs.files ∨ base ++ [f] ∈ s.fs.dirs
                    then (s.fs.children (base ++ [f])).length else b)
        MonitorApp.folders s.bars) ++ s.bars.drop MonitorApp.folders.length := by
  simp only [MonitorApp.update_folder_counts, hb] at h
  cases hu : MonitorApp.updateBars s.fs base MonitorApp.folders s.bars with
  | error e => simp only [hu] at h; cases h
  | ok bars' =>
    simp only [hu, Except.ok.injEq] at h
    subst h
    exact ⟨rfl, hb.symm, rfl, updateBars_ok _ _ _ hu⟩

theorem C9_witness :
    MonitorApp.update_folder_counts
        ⟨some ["R"], ⟨[["R"], ["R", "images"]], [["R", "images", "photo.jpg"]]⟩, [],
         [0, 0, 0, 0, 0, 0, 0, 0]⟩ =
      .ok ⟨some ["R"], ⟨[["R"], ["R", "images"]], [["R", "images", "photo.jpg"]]⟩, [],
           [1, 0, 0, 0, 0, 0, 0, 0]⟩ ∧
    (⟨some ["R"], ⟨[["R"], ["R", "images"]], [["R", "images", "photo.jpg"]]⟩, [],
      [1, 0, 0, 0, 0, 0, 0, 0]⟩ : MonitorApp.AppState).fs =
      ⟨[["R"], ["R", "images"]], [["R", "images", "photo.jpg"]]⟩ ∧
    (⟨some ["R"], ⟨[["R"], ["R", "images"]], [["R", "images", "photo.jpg"]]⟩, [],
      [1, 0, 0, 0, 0, 0, 0, 0]⟩ : MonitorApp.AppState).bars = [1, 0, 0, 0, 0, 0, 0, 0] := by
  have h := C9_refresh_counts
    ⟨some ["R"], ⟨[["R"], ["R", "images"]], [["R", "images", "photo.jpg"]]⟩, [],
     [0, 0, 0, 0, 0, 0, 0, 0]⟩
    ⟨some ["R"], ⟨[["R"], ["R", "images"]], [["R", "images", "photo.jpg"]]⟩, [],
     [1, 0, 0, 0, 0, 0, 0, 0]⟩
    ["R"] rfl (by decide)
  exact ⟨by decide, h.1, h.2.2.2⟩
